import Mathlib

/-!
Shallow embedding of `use-buffered-pagination` (TypeScript).

Sources embedded here:
- `src/buffer.ts`: `Range`, `BufferSlice` (`tryJoin`, `trySlice`, `trySplit`)
  and `BufferSliceSet` (`insert`, `offset`, `terminal`, `subset`,
  `optimize` = `deduplicate` + `fragment` + `deallocate`).
- `src/useTimeoutDispatch.ts` (unnamed part_003): the rate limited
  dispatcher, modelled as a discrete event system over natural-number time.
- `src/usePaginationBufferState.ts` (unnamed part_003): the per-query
  buffer store with generation-based backstack eviction.
- `src/useBufferedPagination.ts`: the `refresh()` range computation.

Offsets and lengths are natural numbers (the constructors of the source
throw on negative values, so the non-negative fragment of the code is the
one every claim quantifies over).  JavaScript arrays become `List`,
mutable in-place loops become explicit recursion over the list, and the
two loops of the source whose index arithmetic interacts with in-loop
splicing (`deduplicate`, `fragment`) are written with an explicit fuel
argument that is large enough for the loop to run to completion
(`deduplicate` performs at most one outer iteration per initial element;
`fragment` visits at most `3·n + 1` indices because each splice removes
one element and appends at most three, and appended fragments are never
split again).  Exhausted fuel returns the remaining state unchanged,
which keeps every coverage lemma unconditional.
-/

namespace BufferedPagination

/-- Embeds `class Range` of `src/buffer.ts`: a half-open interval
`[offset, offset+length)` with non-negative offset and length. -/
structure Range where
  offset : Nat
  length : Nat
  deriving DecidableEq, Repr

/-- Embeds the `terminal` getter of `Range`. -/
def Range.terminal (r : Range) : Nat := r.offset + r.length

/-- Embeds `class BufferSlice` of `src/buffer.ts`: an immutable slice of
data placed at a non-negative offset. -/
structure BufferSlice (T : Type) where
  offset : Nat
  data : List T
  deriving DecidableEq, Repr

/-- Embeds the `terminal` getter of `BufferSlice`: `offset + data.length`. -/
def BufferSlice.terminal (s : BufferSlice T) : Nat := s.offset + s.data.length

/-- Embeds `BufferSlice.tryJoin`.  `x.tryJoin y` merges `y` into `x`
(`this = x` has precedence on collision): with `i = x.offset`,
`j = x.terminal`, `s = y.offset`, `e = y.terminal`, the source returns
`null` when `j < s || e < i`, and otherwise the slice
`new BufferSlice(i - si.length, [...si, ...x.data, ...je])` where
`si = y.data.slice(0, max(0, i - s))` and `je = y.data.slice(max(j - s))`.
Natural subtraction models the `max(0, ·)` clamps exactly. -/
def BufferSlice.tryJoin (x y : BufferSlice T) : Option (BufferSlice T) :=
  if x.terminal < y.offset ∨ y.terminal < x.offset then
    none
  else
    let si := y.data.take (x.offset - y.offset)
    let je := y.data.drop (x.terminal - y.offset)
    some ⟨x.offset - si.length, si ++ x.data ++ je⟩

/-- Embeds `BufferSlice.trySlice(offset, length)` for a finite length:
returns `null` when `j <= s || e <= i`, otherwise the sub-slice
`new BufferSlice(i + isL, data.slice(isL, ieL))` with
`isL = max(0, s - i)` and `ieL = max(0, e - i)`. -/
def BufferSlice.trySlice (b : BufferSlice T) (offset length : Nat) : Option (BufferSlice T) :=
  if b.terminal ≤ offset ∨ offset + length ≤ b.offset then
    none
  else
    let isL := offset - b.offset
    let ieL := offset + length - b.offset
    some ⟨b.offset + isL, (b.data.drop isL).take (ieL - isL)⟩

/-- Embeds `BufferSlice.trySlice(offset, Infinity)`, the unbounded case
used by `trySplit` for its last part: the guard `e <= i` is never taken
and `data.slice(isL, Infinity)` keeps everything from `isL` on. -/
def BufferSlice.trySliceInf (b : BufferSlice T) (offset : Nat) : Option (BufferSlice T) :=
  if b.terminal ≤ offset then
    none
  else
    let isL := offset - b.offset
    some ⟨b.offset + isL, b.data.drop isL⟩

/-- Embeds `BufferSlice.trySplit(o, t)` as called by
`BufferSliceSet.fragment` (exactly two split offsets, `o ≤ t`).  The
source loop produces three parts for the bands `[0, o)`, `[o, t)` and
`[t, ∞)`; a part whose band already contains the whole slice is returned
as the slice itself (the `s <= i && j <= e` optimization), the others go
through `trySlice`. -/
def BufferSlice.trySplit2 (b : BufferSlice T) (o t : Nat) :
    Option (BufferSlice T) × Option (BufferSlice T) × Option (BufferSlice T) :=
  ( if b.terminal ≤ o then some b else b.trySlice 0 o,
    if o ≤ b.offset ∧ b.terminal ≤ t then some b else b.trySlice o (t - o),
    if t ≤ b.offset then some b else b.trySliceInf t )

/-- Coverage of a single slice: index `n` holds an item of `s`. -/
def BufferSlice.covers (s : BufferSlice T) (n : Nat) : Prop :=
  s.offset ≤ n ∧ n < s.terminal

instance (s : BufferSlice T) (n : Nat) : Decidable (s.covers n) := by
  unfold BufferSlice.covers
  infer_instance

/-- Two slices overlap when some index is covered by both. -/
def BufferSlice.overlaps (a b : BufferSlice T) : Prop :=
  max a.offset b.offset < min a.terminal b.terminal

instance (a b : BufferSlice T) : Decidable (a.overlaps b) := by
  unfold BufferSlice.overlaps
  infer_instance

namespace BufferSliceSet

/-- Coverage of a slice set: index `n` is held by some resident slice. -/
def covered (l : List (BufferSlice T)) (n : Nat) : Prop :=
  ∃ s ∈ l, s.covers n

instance (l : List (BufferSlice T)) (n : Nat) : Decidable (covered l n) := by
  unfold covered
  infer_instance

/-- Embeds `BufferSliceSet.insert(...slices)`: appends the given slices,
dropping the zero-length ones (`filter(it => it.length)`). -/
def insert (l news : List (BufferSlice T)) : List (BufferSlice T) :=
  l ++ news.filter (fun s => s.data.length != 0)

/-- Embeds the `offset` getter of `BufferSliceSet`:
`Math.min(0, ...this.slices.map(it => it.offset))`. -/
def offset (l : List (BufferSlice T)) : Nat :=
  (l.map BufferSlice.offset).foldl Nat.min 0

/-- Embeds the `terminal` getter of `BufferSliceSet`:
`Math.max(0, ...this.slices.map(it => it.terminal))`. -/
def terminal (l : List (BufferSlice T)) : Nat :=
  (l.map BufferSlice.terminal).foldl Nat.max 0

/-- Embeds the inner `j` loop of `BufferSliceSet.deduplicate` for one
outer index.  `ib` is the value `const ib = this.slices[i]` captured once
before the scan and never re-read; `cur` is the current `slices[i]`,
initially equal to `ib`.  For each later slice `jb` the source computes
`jb.tryJoin(ib)` against the stale `ib`; on success the result overwrites
`slices[i]` (so a second successful join in the same scan discards the
previous join's data), `jb` is spliced out and the scan continues from
the same position; otherwise `jb` is kept and `j` advances.  Returns the
final `slices[i]` together with the surviving later slices in order. -/
def dedupInner (ib cur : BufferSlice T) :
    List (BufferSlice T) → BufferSlice T × List (BufferSlice T)
  | [] => (cur, [])
  | jb :: rest =>
    match jb.tryJoin ib with
    | some ijb => dedupInner ib ijb rest
    | none =>
      let r := dedupInner ib cur rest
      (r.1, jb :: r.2)

/-- Embeds the outer `i` loop of `BufferSliceSet.deduplicate`.  `acc` holds
the already finalized prefix `slices[0..i)`.  One outer iteration consumes
one element of `rest`, so fuel `rest.length` always suffices; exhausted
fuel returns the remaining slices unchanged. -/
def dedupGo : Nat → List (BufferSlice T) → List (BufferSlice T) → List (BufferSlice T)
  | _, acc, [] => acc
  | Nat.succ fuel, acc, ib :: rest =>
    let r := dedupInner ib ib rest
    dedupGo fuel (acc ++ [r.1]) r.2
  | 0, acc, rest => acc ++ rest

/-- Embeds `BufferSliceSet.deduplicate()`. -/
def deduplicate (l : List (BufferSlice T)) : List (BufferSlice T) :=
  dedupGo l.length [] l

/-- Embeds the loop body and index bookkeeping of
`BufferSliceSet.fragment(offset, length)` with `t = offset + length`.
The source iterates `i` over the (mutating) array: it splits `slices[i]`
at `(offset, t)`; when the middle fragment exists (`fragments[1] != null`)
and more than one fragment is non-null, it splices `slices[i]` out and
pushes the non-null fragments to the end; in every case `i` is then
incremented (so after a splice the element that moved into position `i`
is skipped).  Exhausted fuel stops the loop and returns the current
slices. -/
def fragmentGo (o t : Nat) : Nat → List (BufferSlice T) → Nat → List (BufferSlice T)
  | 0, l, _ => l
  | Nat.succ fuel, l, i =>
    if h : i < l.length then
      let b := l.get ⟨i, h⟩
      let parts3 := b.trySplit2 o t
      match parts3.2.1 with
      | some _ =>
        let parts := [parts3.1, parts3.2.1, parts3.2.2].filterMap id
        if 1 < parts.length then
          fragmentGo o t fuel (l.eraseIdx i ++ parts) (i + 1)
        else
          fragmentGo o t fuel l (i + 1)
      | none => fragmentGo o t fuel l (i + 1)
    else l

/-- Embeds `BufferSliceSet.fragment(offset, length)`.  Fuel `3·n + 1`
always runs the loop to completion: the array never exceeds three times
its initial length (each splice removes a straddling slice and appends at
most three in-band fragments, and fragments are never split again). -/
def fragment (l : List (BufferSlice T)) (offset length : Nat) : List (BufferSlice T) :=
  fragmentGo offset (offset + length) (3 * l.length + 1) l 0

/-- Embeds `BufferSliceSet.deallocate(offset, length)`: removes every
slice with `terminal <= offset || offset >= terminal`, i.e. keeps exactly
the slices that intersect the half-open window. -/
def deallocate (l : List (BufferSlice T)) (offset length : Nat) : List (BufferSlice T) :=
  l.filter (fun b => !(decide (b.terminal ≤ offset) || decide (offset + length ≤ b.offset)))

/-- Embeds `BufferSliceSet.optimize(offset, length)`:
`deduplicate(); fragment(offset, length); deallocate(offset, length)`. -/
def optimize (l : List (BufferSlice T)) (offset length : Nat) : List (BufferSlice T) :=
  deallocate (fragment (deduplicate l) offset length) offset length

end BufferSliceSet

/-- Embeds the subset record returned by `BufferSliceSet.subset`:
`sequential`, the absent ranges, and the data array whose entries are
`T | undefined` (modelled as `Option T`). -/
structure BufferSliceSubset (T : Type) where
  sequential : Bool
  absence : List Range
  data : List (Option T)
  deriving DecidableEq, Repr

/-- Embeds ECMAScript `Array.prototype.fill(undefined, relStart, relEnd)`
on an array of `T | undefined`: both indices are clamped to
`[0, length]`, a negative index counts from the end, and only existing
entries between the two resolved indices are overwritten — `fill` never
grows the array. -/
def jsFill (l : List (Option T)) (relStart relEnd : Int) : List (Option T) :=
  let len : Int := l.length
  let s := if relStart < 0 then max (len + relStart) 0 else min relStart len
  let e := if relEnd < 0 then max (len + relEnd) 0 else min relEnd len
  l.mapIdx fun i x => if s ≤ (i : Int) ∧ (i : Int) < e then none else x

namespace BufferSliceSet

/-- Stable insertion of a slice after every slice of smaller or equal
offset; folding it left over a list yields the stable sort by `offset`
performed by `slices.sort((a, b) => a.offset - b.offset)`. -/
def insertByOffset (s : BufferSlice T) : List (BufferSlice T) → List (BufferSlice T)
  | [] => [s]
  | x :: xs => if x.offset ≤ s.offset then x :: insertByOffset s xs else s :: x :: xs

/-- Stable sort by offset, embedding the `sort` call of `subset`. -/
def sortByOffset (l : List (BufferSlice T)) : List (BufferSlice T) :=
  l.foldl (fun acc s => insertByOffset s acc) []

/-- Embeds the left-to-right walk of `BufferSliceSet.subset`: for each
window slice, `absentLength = slice.offset - absentOffset` (a JavaScript
number, so `Int` here); when it is non-zero the source fills
`data[absentOffset - offset .. absentLength)` with `undefined` and pushes
`new Range(absentOffset, absentLength)` — which throws when
`absentLength` is negative (modelled as `Except.error`); then the slice
data is pushed and `absentOffset` becomes the slice terminal.  Returns
the accumulated data, absence list and final `absentOffset`. -/
def subsetWalk (offset : Nat) :
    List (BufferSlice T) → List (Option T) → List Range → Nat →
    Except Unit (List (Option T) × List Range × Nat)
  | [], data, absence, absentOffset => Except.ok (data, absence, absentOffset)
  | sl :: rest, data, absence, absentOffset =>
    let absentLength : Int := (sl.offset : Int) - (absentOffset : Int)
    if absentLength ≠ 0 then
      let data1 := jsFill data ((absentOffset : Int) - (offset : Int)) absentLength
      if absentLength < 0 then
        Except.error ()
      else
        subsetWalk offset rest (data1 ++ sl.data.map some)
          (absence ++ [⟨absentOffset, absentLength.toNat⟩]) sl.terminal
    else
      subsetWalk offset rest (data ++ sl.data.map some) absence sl.terminal

/-- Embeds `BufferSliceSet.subset(offset, length)`: deduplicate, clip
every resident slice to the window, sort by offset, walk recording gaps,
append the trailing gap when the walk stops short of the window terminal,
and return a sequential subset exactly when no gap was recorded.  A
`Range` constructed with a negative length throws in the source; that is
the `Except.error` outcome. -/
def subset (l : List (BufferSlice T)) (offset length : Nat) :
    Except Unit (BufferSliceSubset T) :=
  let slices := sortByOffset ((deduplicate l).filterMap fun b => b.trySlice offset length)
  let terminal := offset + length
  match subsetWalk offset slices [] [] offset with
  | Except.error e => Except.error e
  | Except.ok (data, absence, absentOffset) =>
    if absentOffset ≠ terminal then
      let absentLength : Int := (terminal : Int) - (absentOffset : Int)
      let data1 := jsFill data ((absentOffset : Int) - (offset : Int)) absentLength
      if absentLength < 0 then
        Except.error ()
      else
        let absence1 := absence ++ [⟨absentOffset, absentLength.toNat⟩]
        Except.ok ⟨absence1.isEmpty, absence1, data1⟩
    else
      Except.ok ⟨absence.isEmpty, absence, data⟩

end BufferSliceSet

end BufferedPagination

namespace BufferedPagination

namespace BufferSliceSet

theorem covered_nil {T : Type} (n : Nat) :
    covered ([] : List (BufferSlice T)) n ↔ False := by
  simp [covered]

theorem covered_cons {T : Type} (s : BufferSlice T) (l : List (BufferSlice T)) (n : Nat) :
    covered (s :: l) n ↔ s.covers n ∨ covered l n := by
  simp [covered]

theorem covered_append {T : Type} (l1 l2 : List (BufferSlice T)) (n : Nat) :
    covered (l1 ++ l2) n ↔ covered l1 n ∨ covered l2 n := by
  simp [covered, or_and_right, exists_or]

end BufferSliceSet

theorem BufferSlice.tryJoin_covers {T : Type} {x y z : BufferSlice T}
    (hj : x.tryJoin y = some z) (n : Nat) :
    z.covers n ↔ x.covers n ∨ y.covers n := by
  unfold BufferSlice.tryJoin at hj
  split at hj
  · exact absurd hj (by simp)
  · rename_i hg
    rw [not_or, not_lt, not_lt] at hg
    obtain ⟨hg1, hg2⟩ := hg
    simp only [Option.some.injEq] at hj
    subst hj
    simp only [BufferSlice.covers, BufferSlice.terminal, List.length_append,
      List.length_take, List.length_drop] at hg1 hg2 ⊢
    omega

namespace BufferSliceSet

theorem dedupInner_covers_mono {T : Type} (l : List (BufferSlice T))
    (ib cur : BufferSlice T) (n : Nat) :
    ((dedupInner ib cur l).1.covers n ∨ covered (dedupInner ib cur l).2 n) →
      (ib.covers n ∨ cur.covers n ∨ covered l n) := by
  induction l generalizing cur with
  | nil =>
    simp only [dedupInner]
    tauto
  | cons jb rest ih =>
    cases hj : jb.tryJoin ib with
    | some ijb =>
      have hco := BufferSlice.tryJoin_covers hj n
      have h2 := ih ijb
      simp only [dedupInner, hj, covered_cons]
      tauto
    | none =>
      have h2 := ih cur
      simp only [dedupInner, hj, covered_cons]
      tauto

theorem dedupGo_covers_mono {T : Type} (fuel : Nat) (acc rest : List (BufferSlice T)) (n : Nat) :
    covered (dedupGo fuel acc rest) n → covered acc n ∨ covered rest n := by
  induction fuel generalizing acc rest with
  | zero =>
    cases rest with
    | nil => exact fun h => Or.inl h
    | cons ib rest =>
      simp only [dedupGo, covered_append]
      exact id
  | succ f ih =>
    cases rest with
    | nil => exact fun h => Or.inl h
    | cons ib rest =>
      simp only [dedupGo]
      intro h
      have h2 := ih (acc ++ [(dedupInner ib ib rest).1]) (dedupInner ib ib rest).2 h
      have h3 := dedupInner_covers_mono rest ib ib n
      rw [covered_append] at h2
      simp only [covered_cons, covered_nil, or_false] at h2
      rw [covered_cons]
      tauto

theorem deduplicate_covers_mono {T : Type} (l : List (BufferSlice T)) (n : Nat) :
    covered (deduplicate l) n → covered l n := by
  unfold deduplicate
  intro h
  have h2 := dedupGo_covers_mono l.length [] l n h
  simp only [covered_nil] at h2
  tauto

end BufferSliceSet

/-- C10 [code_bug]: `deduplicate()` can lose coverage.  On the buffer
`[(0,[1,2]), (2,[3,4]), (1,[8,9])]` the first inner join merges `[2,4)`
into the captured `ib = [0,2)` and stores `[0,4)` in `slices[i]`, but the
second join is again computed against the stale captured `ib` and its
result `[0,3)` overwrites `slices[i]`, discarding the first join's data:
the pass ends with the single slice `(0,[1,8,9])` and index 3, covered
before, is covered by no resident slice afterwards. -/
theorem c10_deduplicate_loses_coverage :
    BufferSliceSet.deduplicate
        [(⟨0,[1,2]⟩ : BufferSlice Nat), ⟨2,[3,4]⟩, ⟨1,[8,9]⟩]
      = [⟨0,[1,8,9]⟩]
    ∧ BufferSliceSet.covered [(⟨0,[1,2]⟩ : BufferSlice Nat), ⟨2,[3,4]⟩, ⟨1,[8,9]⟩] 3
    ∧ ¬ BufferSliceSet.covered
        (BufferSliceSet.deduplicate
          [(⟨0,[1,2]⟩ : BufferSlice Nat), ⟨2,[3,4]⟩, ⟨1,[8,9]⟩]) 3 := by
  decide

end BufferedPagination

namespace BufferedPagination

/-- Coverage of an optional slice (`null` covers nothing). -/
def optCovers (o : Option (BufferSlice T)) (n : Nat) : Prop :=
  match o with
  | none => False
  | some s => s.covers n

theorem optCovers_none {T : Type} (n : Nat) :
    optCovers (none : Option (BufferSlice T)) n ↔ False := Iff.rfl

theorem optCovers_some {T : Type} (s : BufferSlice T) (n : Nat) :
    optCovers (some s) n ↔ s.covers n := Iff.rfl

theorem BufferSlice.trySlice_covers {T : Type} (b : BufferSlice T) (s len n : Nat) :
    optCovers (b.trySlice s len) n ↔ b.covers n ∧ s ≤ n ∧ n < s + len := by
  unfold BufferSlice.trySlice
  split
  · rename_i hg
    rw [optCovers_none, false_iff]
    simp only [BufferSlice.covers, BufferSlice.terminal] at hg ⊢
    omega
  · rename_i hg
    rw [not_or, not_le, not_le] at hg
    obtain ⟨hg1, hg2⟩ := hg
    rw [optCovers_some]
    simp only [BufferSlice.covers, BufferSlice.terminal, List.length_take,
      List.length_drop] at hg1 hg2 ⊢
    omega

theorem BufferSlice.trySliceInf_covers {T : Type} (b : BufferSlice T) (s n : Nat) :
    optCovers (b.trySliceInf s) n ↔ b.covers n ∧ s ≤ n := by
  unfold BufferSlice.trySliceInf
  split
  · rename_i hg
    rw [optCovers_none, false_iff]
    simp only [BufferSlice.covers, BufferSlice.terminal] at hg ⊢
    omega
  · rename_i hg
    rw [not_le] at hg
    rw [optCovers_some]
    simp only [BufferSlice.covers, BufferSlice.terminal, List.length_drop] at hg ⊢
    omega

theorem BufferSlice.trySplit2_covers {T : Type} (b : BufferSlice T) (o t n : Nat)
    (hot : o ≤ t) :
    (optCovers (b.trySplit2 o t).1 n ∨ optCovers (b.trySplit2 o t).2.1 n ∨
      optCovers (b.trySplit2 o t).2.2 n) ↔ b.covers n := by
  unfold BufferSlice.trySplit2
  have h0 := BufferSlice.trySlice_covers b 0 o n
  have h1 := BufferSlice.trySlice_covers b o (t - o) n
  have h2 := BufferSlice.trySliceInf_covers b t n
  split_ifs with c0 c1 c2 <;>
    simp only [optCovers_some, h0, h1, h2] <;>
    simp only [BufferSlice.covers, BufferSlice.terminal] at * <;>
    omega

namespace BufferSliceSet

theorem covered_filterMap3 {T : Type} (p0 p1 p2 : Option (BufferSlice T)) (n : Nat) :
    covered ([p0, p1, p2].filterMap id) n ↔
      (optCovers p0 n ∨ optCovers p1 n ∨ optCovers p2 n) := by
  cases p0 <;> cases p1 <;> cases p2 <;>
    simp [covered_cons, covered_nil, optCovers]

theorem covered_eraseIdx {T : Type} (l : List (BufferSlice T)) (i : Nat)
    (h : i < l.length) (n : Nat) :
    covered l n ↔ ((l.get ⟨i, h⟩).covers n ∨ covered (l.eraseIdx i) n) := by
  induction l generalizing i with
  | nil => simp at h
  | cons a l ih =>
    cases i with
    | zero => simp [covered_cons, List.eraseIdx]
    | succ i =>
      have hi : i < l.length := by simpa using h
      rw [covered_cons, List.eraseIdx, covered_cons, ih i hi]
      simp only [List.get]
      tauto

theorem fragmentGo_covers {T : Type} (o t : Nat) (hot : o ≤ t)
    (fuel : Nat) (l : List (BufferSlice T)) (i n : Nat) :
    covered (fragmentGo o t fuel l i) n ↔ covered l n := by
  induction fuel generalizing l i with
  | zero => rfl
  | succ f ih =>
    rw [fragmentGo]
    by_cases h : i < l.length
    · rw [dif_pos h]
      have hsplit := BufferSlice.trySplit2_covers (l.get ⟨i, h⟩) o t n hot
      have herase := covered_eraseIdx l i h n
      cases hm : ((l.get ⟨i, h⟩).trySplit2 o t).2.1 with
      | none =>
        simp only [hm]
        rw [ih]
      | some w =>
        rw [hm] at hsplit
        simp only [hm]
        split
        · rw [ih, covered_append, covered_filterMap3]
          tauto
        · rw [ih]
    · rw [dif_neg h]

theorem fragment_covers {T : Type} (l : List (BufferSlice T)) (o len n : Nat) :
    covered (fragment l o len) n ↔ covered l n := by
  unfold fragment
  exact fragmentGo_covers o (o + len) (Nat.le_add_right o len) _ l 0 n

theorem mem_deallocate {T : Type} (l : List (BufferSlice T)) (o len : Nat)
    (s : BufferSlice T) :
    s ∈ deallocate l o len ↔ s ∈ l ∧ o < s.terminal ∧ s.offset < o + len := by
  unfold deallocate
  rw [List.mem_filter]
  have hb : (!(decide (s.terminal ≤ o) || decide (o + len ≤ s.offset))) = true ↔
      (o < s.terminal ∧ s.offset < o + len) := by
    cases hd1 : decide (s.terminal ≤ o) <;> cases hd2 : decide (o + len ≤ s.offset) <;>
      simp at hd1 hd2 ⊢ <;> omega
  rw [hb]

theorem deallocate_covers_inwindow {T : Type} (l : List (BufferSlice T))
    (o len n : Nat) (h1 : o ≤ n) (h2 : n < o + len) :
    covered (deallocate l o len) n ↔ covered l n := by
  unfold covered
  constructor
  · rintro ⟨s, hs, hc⟩
    exact ⟨s, ((mem_deallocate l o len s).1 hs).1, hc⟩
  · rintro ⟨s, hs, hc⟩
    obtain ⟨hc1, hc2⟩ := hc
    refine ⟨s, (mem_deallocate l o len s).2 ⟨hs, ?_, ?_⟩, hc1, hc2⟩ <;> omega

theorem deallocate_covers_mono {T : Type} (l : List (BufferSlice T))
    (o len n : Nat) :
    covered (deallocate l o len) n → covered l n := by
  rintro ⟨s, hs, hc⟩
  exact ⟨s, ((mem_deallocate l o len s).1 hs).1, hc⟩

theorem optimize_covers_mono {T : Type} (l : List (BufferSlice T))
    (o len n : Nat) :
    covered (optimize l o len) n → covered l n := by
  unfold optimize
  intro h
  have h1 := deallocate_covers_mono _ o len n h
  rw [fragment_covers] at h1
  exact deduplicate_covers_mono l n h1

end BufferSliceSet

end BufferedPagination

namespace BufferedPagination

/-- Embeds the range construction of `refresh()` in
`src/useBufferedPagination.ts`: `new Range(offset, offset + length)` with
`offset = page * pageSize`.  The identifier `length` is not bound
anywhere in the hook scope; in a browser module it resolves to the global
`window.length` (the frame count, normally `0`), modelled here as the
extra parameter `globalLength`; in other runtimes the reference throws.
Note also that the second `Range` argument is a length, so the code
builds the range `[offset, 2·offset + globalLength)`. -/
def refreshFirstRange (page pageSize globalLength : Nat) : Range :=
  ⟨page * pageSize, page * pageSize + globalLength⟩

/-- C1 [code_bug]: a single `deduplicate()` pass can leave two overlapping
resident slices, contrary to the documented invariant.  Inserting slices
`[0,2)`, `[5,8)`, `[1,6)` and deduplicating joins `[1,6)` into `[0,2)`
giving `[0,6)`, but the already scanned slice `[5,8)` is never
re-examined, so `[0,6)` and `[5,8)` both survive and overlap at index 5;
a following `subset(0, 8)` on the same buffer then computes a negative
absent length and throws in the `Range` constructor (`Except.error`
here). -/
theorem c1_deduplicate_leaves_overlap :
    BufferSliceSet.deduplicate
        (BufferSliceSet.insert []
          [⟨0,[0,1]⟩, ⟨5,[2,3,4]⟩, (⟨1,[5,6,7,8,9]⟩ : BufferSlice Nat)])
      = [⟨0,[0,5,6,7,8,9]⟩, ⟨5,[2,3,4]⟩]
    ∧ BufferSlice.overlaps (⟨0,[0,5,6,7,8,9]⟩ : BufferSlice Nat) ⟨5,[2,3,4]⟩
    ∧ BufferSliceSet.subset
        (BufferSliceSet.insert []
          [⟨0,[0,1]⟩, ⟨5,[2,3,4]⟩, (⟨1,[5,6,7,8,9]⟩ : BufferSlice Nat)]) 0 8
      = Except.error () :=
  ⟨by decide, by decide, rfl⟩

/-- C2 counterexample: after `optimize(2, 3)` on the buffer holding
`[0,3)` and `[4,6)`, the slice `[4,6)` survives unsplit although its
terminal 6 exceeds the window terminal 5 — the `fragment` loop splices
the first straddling slice out and thereby skips the element that shifts
into its index, so not every resident slice lies within the window. -/
theorem c2_optimize_leaves_straddling_slice :
    ¬ (∀ s ∈ BufferSliceSet.optimize
          [(⟨0,[10,11,12]⟩ : BufferSlice Nat), ⟨4,[13,14]⟩] 2 3,
        2 ≤ s.offset ∧ s.terminal ≤ 2 + 3) := by
  decide

/-- C2 [corrected]: after `optimize(offset, length)` every resident slice
intersects the window `[offset, offset+length)` — in particular every
slice fully outside the window has been removed by `deallocate` — but a
straddling slice may survive unsplit and extend past a window boundary. -/
theorem c2_optimize_keeps_only_window_intersecting_slices {T : Type}
    (l : List (BufferSlice T)) (o len : Nat) (s : BufferSlice T)
    (hs : s ∈ BufferSliceSet.optimize l o len) :
    o < s.terminal ∧ s.offset < o + len := by
  unfold BufferSliceSet.optimize at hs
  exact ((BufferSliceSet.mem_deallocate _ o len s).1 hs).2

/-- Witness for C2 at a concrete buffer and window. -/
theorem c2_optimize_keeps_only_window_intersecting_slices_witness :
    (⟨2,[12]⟩ : BufferSlice Nat) ∈
        BufferSliceSet.optimize [(⟨0,[10,11,12]⟩ : BufferSlice Nat), ⟨4,[13,14]⟩] 2 3
    ∧ (2 < (⟨2,[12]⟩ : BufferSlice Nat).terminal
        ∧ (⟨2,[12]⟩ : BufferSlice Nat).offset < 2 + 3) :=
  ⟨by decide,
    c2_optimize_keeps_only_window_intersecting_slices
      [(⟨0,[10,11,12]⟩ : BufferSlice Nat), ⟨4,[13,14]⟩] 2 3 ⟨2,[12]⟩ (by decide)⟩

/-- C3 [code_bug]: a non-sequential `subset` does not represent the whole
window.  On an empty buffer, `subset(0, 2)` returns `sequential = false`
with absence `[(0,2)]` but `data = []`: the source pads holes with
`data.fill(undefined, start, len)`, and `Array.prototype.fill` never
grows the array (its third argument is an end index besides), so no
`undefined` hole entries are ever produced and the data array is missing
every absent index. -/
theorem c3_subset_data_omits_holes :
    BufferSliceSet.subset ([] : List (BufferSlice Nat)) 0 2
      = Except.ok ⟨false, [⟨0,2⟩], []⟩ := rfl

/-- C4 counterexample: `optimize` is not idempotent.  On the buffer
holding `[0,3)` and `[4,6)` with window `[2,5)`, one `optimize(2,3)`
leaves the straddling slice `[4,6)` (index 5 still covered), while a
second identical `optimize` splits it and drops `[5,6)`, so the resident
slice sets of one and two applications differ. -/
theorem c4_optimize_not_idempotent :
    BufferSliceSet.covered
        (BufferSliceSet.optimize [(⟨0,[10,11,12]⟩ : BufferSlice Nat), ⟨4,[13,14]⟩] 2 3) 5
    ∧ ¬ BufferSliceSet.covered
        (BufferSliceSet.optimize
          (BufferSliceSet.optimize [(⟨0,[10,11,12]⟩ : BufferSlice Nat), ⟨4,[13,14]⟩] 2 3)
          2 3) 5 := by
  decide

/-- Even the in-window covered set is not idempotent under `optimize`:
on `[(0,[0,1]), (5,[5,6,7]), (3,[3]), (1,[1,2,3,4,5])]` with window
`[0,10)`, the first `optimize` leaves `[0,6), [5,8), [3,4)` (index 6
covered), while the second pass joins `[5,8)` into `[0,6)` giving `[0,8)`
and then overwrites it with the join of `[3,4)` against the stale
`[0,6)`, ending at `[0,6)` — index 6, inside the window, is lost. -/
theorem optimize_inwindow_coverage_not_idempotent :
    BufferSliceSet.covered
        (BufferSliceSet.optimize
          [(⟨0,[0,1]⟩ : BufferSlice Nat), ⟨5,[5,6,7]⟩, ⟨3,[3]⟩, ⟨1,[1,2,3,4,5]⟩]
          0 10) 6
    ∧ ¬ BufferSliceSet.covered
        (BufferSliceSet.optimize
          (BufferSliceSet.optimize
            [(⟨0,[0,1]⟩ : BufferSlice Nat), ⟨5,[5,6,7]⟩, ⟨3,[3]⟩, ⟨1,[1,2,3,4,5]⟩]
            0 10) 0 10) 6 := by
  decide

/-- C4 [corrected]: `optimize` is not idempotent, but repeating it only
shrinks the buffer — every pass of `optimize` (deduplicate, fragment,
deallocate) can only drop covered indices, never restore or invent them,
so every index covered after applying `optimize` twice with the same
window was already covered after applying it once.  Full idempotence
fails (first counterexample above), and even the in-window covered set
can shrink on a repeated application, because a `deduplicate` pass inside
the second `optimize` can overwrite `slices[i]` with a join against the
stale captured `ib` and lose data merged by an earlier join. -/
theorem c4_optimize_repeat_never_adds_coverage {T : Type}
    (l : List (BufferSlice T)) (o len n : Nat)
    (h : BufferSliceSet.covered
        (BufferSliceSet.optimize (BufferSliceSet.optimize l o len) o len) n) :
    BufferSliceSet.covered (BufferSliceSet.optimize l o len) n :=
  BufferSliceSet.optimize_covers_mono _ o len n h

/-- Witness for C4 at a concrete buffer, window and index. -/
theorem c4_optimize_repeat_never_adds_coverage_witness :
    BufferSliceSet.covered
      (BufferSliceSet.optimize [(⟨0,[5]⟩ : BufferSlice Nat)] 0 1) 0 :=
  c4_optimize_repeat_never_adds_coverage
    [(⟨0,[5]⟩ : BufferSlice Nat)] 0 1 0 (by decide)

/-- C5: inserting `(0, [a,b,c])` then `(0, [d,e,f])` into an empty buffer
and deduplicating leaves exactly one slice, at offset 0, holding
`[d,e,f]` — `deduplicate` computes `jb.tryJoin(ib)` with the later slice
as `this`, so the most recently inserted data wins on overlap. -/
theorem c5_newest_insert_wins_on_equal_range {T : Type} (a b c d e f : T) :
    BufferSliceSet.deduplicate
        (BufferSliceSet.insert [] [⟨0,[a,b,c]⟩, ⟨0,[d,e,f]⟩])
      = [⟨0,[d,e,f]⟩] := rfl

/-- C6 [code_bug]: the `offset` getter computes
`Math.min(0, ...offsets)`, which is 0 for every buffer with non-negative
slice offsets — for a buffer holding a single slice at offset 5 it
returns 0, not the minimum slice offset 5 its documentation promises.
The `terminal` getter (`Math.max(0, ...)`) is correct. -/
theorem c6_offset_getter_ignores_min_slice_offset :
    BufferSliceSet.offset [(⟨5,[37]⟩ : BufferSlice Nat)] = 0
    ∧ BufferSliceSet.terminal [(⟨5,[37]⟩ : BufferSlice Nat)] = 6 := by
  decide

/-- C9 [code_bug]: `refresh()` does not fetch the current page range.
With `page = 2`, `pageSize = 15` (page offset 30), the claim requires the
first fetched range `[30, 45)` (`Range` offset 30, length 15); the code
constructs `new Range(offset, offset + length)` with an out-of-scope
`length` (browser global `0`), producing `Range` offset 30, length 30 —
the range `[30, 60)`. -/
theorem c9_refresh_fetches_wrong_range :
    refreshFirstRange 2 15 0 = ⟨30, 30⟩
    ∧ refreshFirstRange 2 15 0 ≠ ⟨30, 15⟩ := by
  decide

end BufferedPagination

namespace BufferedPagination

/-- A pending `setTimeout` callback of `useTimeoutDispatch`
(`src/useTimeoutDispatch.ts`): it fires at `fireAt`, captured
`expectedDispatchCount = expected`, and will run (or ignore) the action
`actId`. -/
structure TDTimer where
  fireAt : Nat
  expected : Nat
  actId : Nat
  deriving DecidableEq, Repr

/-- The dispatcher state: the `dispatchTime` and `dispatchCount` refs of
`useTimeoutDispatch` plus the pending timers in scheduling order.  Time
is a natural number; runs feed events in non-decreasing time order, so
`dispatchTime` never exceeds the current time and pending timers hold
non-decreasing deadlines in scheduling order (each deadline is the
`dispatchTime` at scheduling plus the timeout), matching the JavaScript
event loop firing order. -/
structure TDState where
  dispatchTime : Nat
  dispatchCount : Nat
  timers : List TDTimer
  deriving DecidableEq, Repr

/-- Observable dispatcher events: an executed action (with its execution
time), an `onDispatchDelayed` report (with `deltaTime`), and an
`onDispatchIgnored` report (with `deltaCount`). -/
inductive TDEvent where
  | executed (time actId : Nat)
  | delayed (actId deltaTime : Nat)
  | ignored (actId deltaCount : Nat)
  deriving DecidableEq, Repr

/-- Embeds the `setTimeout` callback body: with the current
`dispatchCount`, compute `deltaCount = dispatchCount - expected`; when
zero set `dispatchTime` to the fire time and execute, otherwise report
the dispatch as ignored.  Returns the new `dispatchTime` and the event. -/
def fireTimer (dt dc : Nat) (tm : TDTimer) : Nat × TDEvent :=
  let deltaCount := dc - tm.expected
  if deltaCount = 0 then
    (tm.fireAt, TDEvent.executed tm.fireAt tm.actId)
  else
    (dt, TDEvent.ignored tm.actId deltaCount)

/-- Fires every pending timer due at or before `now`, front first (the
pending list holds non-decreasing deadlines).  Returns the new
`dispatchTime`, the remaining timers and the emitted events. -/
def fireDue (dt dc : Nat) : List TDTimer → Nat → Nat × List TDTimer × List TDEvent
  | [], _ => (dt, [], [])
  | tm :: rest, now =>
    if tm.fireAt ≤ now then
      let r1 := fireTimer dt dc tm
      let r2 := fireDue r1.1 dc rest now
      (r2.1, r2.2.1, r1.2 :: r2.2.2)
    else (dt, tm :: rest, [])

/-- Fires every remaining pending timer at the end of a run. -/
def drainTimers (dt dc : Nat) : List TDTimer → Nat × List TDEvent
  | [] => (dt, [])
  | tm :: rest =>
    let r1 := fireTimer dt dc tm
    let r2 := drainTimers r1.1 dc rest
    (r2.1, r1.2 :: r2.2)

/-- Embeds one call of the function returned by `useTimeoutDispatch`
at time `now` for action `actId`, after first firing the timers due by
`now`.  With `timeout > 0` the call increments `dispatchCount`; when
`deltaTime = now - dispatchTime < timeout` it reports the dispatch as
delayed and schedules a timer for `now + (timeout - deltaTime)` carrying
the incremented count; otherwise (and always when `timeout = 0`) it
executes immediately and records `dispatchTime = now`. -/
def callStep (timeout : Nat) (s : TDState) (now actId : Nat) : TDState × List TDEvent :=
  let r := fireDue s.dispatchTime s.dispatchCount s.timers now
  let dt := r.1
  let timers := r.2.1
  let evs := r.2.2
  if 0 < timeout then
    let deltaTime := now - dt
    let dc := s.dispatchCount + 1
    if deltaTime < timeout then
      (⟨dt, dc, timers ++ [⟨now + (timeout - deltaTime), dc, actId⟩]⟩,
        evs ++ [TDEvent.delayed actId deltaTime])
    else
      (⟨now, dc, timers⟩, evs ++ [TDEvent.executed now actId])
  else
    (⟨now, s.dispatchCount, timers⟩, evs ++ [TDEvent.executed now actId])

/-- Processes a time-ordered list of `(time, actId)` dispatch calls. -/
def runCalls (timeout : Nat) : TDState → List (Nat × Nat) → TDState × List TDEvent
  | s, [] => (s, [])
  | s, (now, actId) :: rest =>
    let r1 := callStep timeout s now actId
    let r2 := runCalls timeout r1.1 rest
    (r2.1, r1.2 ++ r2.2)

/-- A complete run: process the calls, then let every remaining timer
fire. -/
def run (timeout : Nat) (s : TDState) (calls : List (Nat × Nat)) : TDState × List TDEvent :=
  let r1 := runCalls timeout s calls
  let r2 := drainTimers r1.1.dispatchTime r1.1.dispatchCount r1.1.timers
  (⟨r2.1, r1.1.dispatchCount, []⟩, r1.2 ++ r2.2)

/-- The executed actions of an event list, as `(time, actId)` pairs. -/
def executions (evs : List TDEvent) : List (Nat × Nat) :=
  evs.filterMap fun e =>
    match e with
    | TDEvent.executed t a => some (t, a)
    | _ => none

end BufferedPagination

namespace BufferedPagination

/-- The timers a burst of deferred dispatches schedules: all fire at the
same deadline and carry consecutive captured counts. -/
def mkTimers (fireAt dc : Nat) : List (Nat × Nat) → List TDTimer
  | [] => []
  | q :: rest => ⟨fireAt, dc + 1, q.2⟩ :: mkTimers fireAt (dc + 1) rest

theorem executions_append (a b : List TDEvent) :
    executions (a ++ b) = executions a ++ executions b :=
  List.filterMap_append a b _

theorem executions_delayed_map (t0 : Nat) (bs : List (Nat × Nat)) :
    executions (bs.map fun q => TDEvent.delayed q.2 (q.1 - t0)) = [] := by
  induction bs with
  | nil => rfl
  | cons q rest ih =>
    simp only [List.map_cons, executions, List.filterMap_cons] at ih ⊢
    exact ih

theorem fireDue_none_due (dt dc t0 timeout now : Nat) (ts : List TDTimer)
    (hts : ∀ tm ∈ ts, tm.fireAt = t0 + timeout) (hnow : now < t0 + timeout) :
    fireDue dt dc ts now = (dt, ts, []) := by
  cases ts with
  | nil => rfl
  | cons tm rest =>
    have h1 := hts tm (List.mem_cons_self tm rest)
    rw [fireDue, if_neg (by omega)]

theorem runCalls_burst (timeout t0 dc : Nat) (ts : List TDTimer)
    (bs : List (Nat × Nat))
    (hto : 0 < timeout)
    (hbs : ∀ q ∈ bs, t0 < q.1 ∧ q.1 < t0 + timeout)
    (hts : ∀ tm ∈ ts, tm.fireAt = t0 + timeout) :
    runCalls timeout ⟨t0, dc, ts⟩ bs
      = (⟨t0, dc + bs.length, ts ++ mkTimers (t0 + timeout) dc bs⟩,
          bs.map fun q => TDEvent.delayed q.2 (q.1 - t0)) := by
  induction bs generalizing dc ts with
  | nil => simp [runCalls, mkTimers]
  | cons q rest ih =>
    obtain ⟨qt, qa⟩ := q
    obtain ⟨hq1, hq2⟩ := hbs (qt, qa) (List.mem_cons_self _ rest)
    have hstep : callStep timeout ⟨t0, dc, ts⟩ qt qa
        = (⟨t0, dc + 1, ts ++ [⟨t0 + timeout, dc + 1, qa⟩]⟩,
            [TDEvent.delayed qa (qt - t0)]) := by
      unfold callStep
      rw [fireDue_none_due t0 dc t0 timeout qt ts hts hq2]
      simp only [if_pos hto]
      rw [if_pos (by omega : qt - t0 < timeout)]
      have harr : qt + (timeout - (qt - t0)) = t0 + timeout := by omega
      rw [harr]
      simp
    have hb2 : ∀ q ∈ rest, t0 < q.1 ∧ q.1 < t0 + timeout :=
      fun p hp => hbs p (List.mem_cons_of_mem _ hp)
    have ht2 : ∀ tm ∈ ts ++ [(⟨t0 + timeout, dc + 1, qa⟩ : TDTimer)],
        tm.fireAt = t0 + timeout := by
      intro tm hm
      rcases List.mem_append.1 hm with h | h
      · exact hts tm h
      · simp at h
        subst h
        rfl
    rw [runCalls, hstep]
    simp only
    have hrec := ih (dc + 1)
      (ts ++ [({ fireAt := t0 + timeout, expected := dc + 1, actId := qa } : TDTimer)]) hb2 ht2
    rw [hrec]
    simp only [mkTimers, List.map_cons, List.length_cons, List.append_assoc,
      List.singleton_append, Prod.mk.injEq, TDState.mk.injEq, and_true, true_and,
      eq_self_iff_true]
    omega

theorem executions_drain_mkTimers (fireAt dt dc C : Nat)
    (pre : List (Nat × Nat)) (pl : Nat × Nat)
    (hC : C = dc + pre.length + 1) :
    executions (drainTimers dt C (mkTimers fireAt dc (pre ++ [pl]))).2
      = [(fireAt, pl.2)] := by
  induction pre generalizing dc dt with
  | nil =>
    have h0 : C - (dc + 1) = 0 := by
      simp at hC
      omega
    simp only [List.nil_append, mkTimers]
    simp only [drainTimers, fireTimer]
    rw [if_pos h0]
    rfl
  | cons q pre ih =>
    have hlen : C = dc + 1 + pre.length + 1 := by
      simp at hC
      omega
    have hne : ¬ (C - (dc + 1) = 0) := by omega
    simp only [List.cons_append, mkTimers]
    simp only [drainTimers, fireTimer]
    rw [if_neg hne]
    exact ih dt (dc + 1) hlen

end BufferedPagination

namespace BufferedPagination

/-- C7: the rate limited dispatcher of `useTimeoutDispatch` with timeout
1000ms.  First conjunct, the concrete scenario: with the last execution
stamp at 0, a dispatch at t=1000 (1000ms elapsed) executes immediately; a
dispatch 200ms later is reported delayed and deferred to t=2000; a third
dispatch at 500ms, arriving before the deferred one fires, causes the
200ms request to be reported ignored (deltaCount 1) and only the 500ms
request to execute, at t=2000 — 1000ms after the previous execution.
Second conjunct, the general burst guarantee: after an immediate
execution at `t0`, any nonempty burst of dispatches strictly inside
`(t0, t0 + timeout)` yields exactly two executions — the opening dispatch
at `t0` and the most recent burst request at `t0 + timeout` — so at most
one action executes per timeout window and only the latest request of the
burst survives. -/
theorem c7_timeout_dispatch_collapses_bursts :
    ((run 1000 ⟨0, 0, []⟩ [(1000, 1), (1200, 2), (1500, 3)]).2
      = [TDEvent.executed 1000 1, TDEvent.delayed 2 200, TDEvent.delayed 3 500,
          TDEvent.ignored 2 1, TDEvent.executed 2000 3])
    ∧ ∀ (timeout dt0 dc t0 a0 : Nat) (pre : List (Nat × Nat)) (pl : Nat × Nat),
        0 < timeout → dt0 + timeout ≤ t0 →
        (∀ q ∈ pre ++ [pl], t0 < q.1 ∧ q.1 < t0 + timeout) →
        executions (run timeout ⟨dt0, dc, []⟩ ((t0, a0) :: (pre ++ [pl]))).2
          = [(t0, a0), (t0 + timeout, pl.2)] := by
  constructor
  · decide
  · intro timeout dt0 dc t0 a0 pre pl hto hgap hburst
    have hstep1 : callStep timeout ⟨dt0, dc, []⟩ t0 a0
        = (⟨t0, dc + 1, []⟩, [TDEvent.executed t0 a0]) := by
      simp only [callStep, fireDue]
      rw [if_pos hto, if_neg (show ¬ (t0 - dt0 < timeout) by omega)]
      simp
    have hb := runCalls_burst timeout t0 (dc + 1) [] (pre ++ [pl]) hto hburst
      (by intro tm hm; simp at hm)
    have hrun1 : runCalls timeout ⟨dt0, dc, []⟩ ((t0, a0) :: (pre ++ [pl]))
        = (⟨t0, dc + 1 + (pre ++ [pl]).length, mkTimers (t0 + timeout) (dc + 1) (pre ++ [pl])⟩,
            [TDEvent.executed t0 a0]
              ++ ((pre ++ [pl]).map fun q => TDEvent.delayed q.2 (q.1 - t0))) := by
      rw [runCalls, hstep1]
      simp only
      rw [hb]
      simp
    have hC : dc + 1 + (pre ++ [pl]).length = (dc + 1) + pre.length + 1 := by
      simp
      omega
    unfold run
    rw [hrun1]
    simp only
    rw [executions_append, executions_append, executions_delayed_map]
    rw [hC, executions_drain_mkTimers (t0 + timeout) t0 (dc + 1)
      ((dc + 1) + pre.length + 1) pre pl rfl]
    rfl

/-- Witness for C7 at the concrete scenario of the claim. -/
theorem c7_timeout_dispatch_collapses_bursts_witness :
    executions (run 1000 ⟨0, 0, []⟩ ((1000, 1) :: ([(1200, 2)] ++ [(1500, 3)]))).2
      = [(1000, 1), (1000 + 1000, (1500, 3).2)] :=
  c7_timeout_dispatch_collapses_bursts.2 1000 0 0 1000 1 [(1200, 2)] (1500, 3)
    (by decide) (by decide) (by decide)

end BufferedPagination

namespace BufferedPagination

/-- Embeds the query-keyed state store of `usePaginationBufferState`
(unnamed part_003): the `queryModCount` state and the `states` map from
query key to its `sinceQueryModCount` stamp, in insertion order. -/
structure QueryStore (K : Type) where
  queryModCount : Nat
  states : List (K × Nat)
  deriving DecidableEq, Repr

/-- The query keys currently retained by the store. -/
def QueryStore.keys (st : QueryStore K) : List K :=
  st.states.map Prod.fst

/-- Embeds one activation of a query key `k` (render plus the key-change
effect of `usePaginationBufferState`): the render creates a missing state
stamped with the current `queryModCount`; with a finite backstack the
effect then increments `queryModCount`, stamps the new count on the
active key and deletes every other key whose stamp lags the new count by
more than the backstack size; with an unbounded backstack
(`queryBackstackSize == Infinity`, here `none`) the effect returns
early and performs no eviction. -/
def switchQuery [DecidableEq K] (backstack : Option Nat) (st : QueryStore K) (k : K) :
    QueryStore K :=
  let states1 :=
    if st.states.any fun p => decide (p.1 = k) then st.states
    else st.states ++ [(k, st.queryModCount)]
  match backstack with
  | none => ⟨st.queryModCount, states1⟩
  | some bs =>
    let mc := st.queryModCount + 1
    let states2 := states1.map fun p => if p.1 = k then (p.1, mc) else p
    ⟨mc, states2.filter fun p => decide (p.1 = k) || decide (mc - p.2 ≤ bs)⟩

/-- A sequence of query activations, oldest first. -/
def runQueries [DecidableEq K] (backstack : Option Nat) (st : QueryStore K) :
    List K → QueryStore K
  | [] => st
  | k :: ks => runQueries backstack (switchQuery backstack st k) ks

theorem switchQuery_none_keeps {K : Type} [DecidableEq K]
    (st : QueryStore K) (k k0 : K) (h : k0 ∈ st.keys) :
    k0 ∈ (switchQuery none st k).keys := by
  unfold QueryStore.keys at h
  unfold switchQuery QueryStore.keys
  split
  · exact h
  · simp only [List.map_append]
    exact List.mem_append_left _ h

theorem runQueries_none_keeps {K : Type} [DecidableEq K]
    (ks : List K) (st : QueryStore K) (k0 : K) (h : k0 ∈ st.keys) :
    k0 ∈ (runQueries none st ks).keys := by
  induction ks generalizing st with
  | nil => exact h
  | cons k ks ih => exact ih (switchQuery none st k) (switchQuery_none_keeps st k k0 h)

/-- C8: backstack eviction of the query buffer store.  First conjunct,
the concrete claim with backstack 1 and keys A=10, B=11, C=12, D=13:
after switching A, B the state of A is still retained; once C becomes
active A is gone (its stamp lags the generation by more than 1) while B
and C survive; after a further switch to D, B is gone and C survives — B
lived exactly until its own generation gap exceeded 1.  Second conjunct:
with an unbounded backstack (`none`), no retained key is ever evicted by
any sequence of query switches. -/
theorem c8_backstack_evicts_by_switch_distance :
    ((10 ∈ (runQueries (some 1) ⟨0, ([] : List (Nat × Nat))⟩ [10, 11]).keys)
      ∧ (10 ∉ (runQueries (some 1) ⟨0, ([] : List (Nat × Nat))⟩ [10, 11, 12]).keys)
      ∧ (11 ∈ (runQueries (some 1) ⟨0, ([] : List (Nat × Nat))⟩ [10, 11, 12]).keys)
      ∧ (12 ∈ (runQueries (some 1) ⟨0, ([] : List (Nat × Nat))⟩ [10, 11, 12]).keys)
      ∧ (11 ∉ (runQueries (some 1) ⟨0, ([] : List (Nat × Nat))⟩ [10, 11, 12, 13]).keys)
      ∧ (12 ∈ (runQueries (some 1) ⟨0, ([] : List (Nat × Nat))⟩ [10, 11, 12, 13]).keys))
    ∧ ∀ (st : QueryStore Nat) (ks : List Nat) (k0 : Nat),
        k0 ∈ st.keys → k0 ∈ (runQueries none st ks).keys := by
  constructor
  · decide
  · intro st ks k0 h
    exact runQueries_none_keeps ks st k0 h

/-- Witness for C8: a retained key survives an unbounded-backstack run. -/
theorem c8_backstack_evicts_by_switch_distance_witness :
    7 ∈ (runQueries none ⟨0, [(7, 0)]⟩ [1, 2, 3]).keys :=
  c8_backstack_evicts_by_switch_distance.2 ⟨0, [(7, 0)]⟩ [1, 2, 3] 7 (by decide)

end BufferedPagination
